import Mathlib

/-!
Verification development for the sdoku judge service (src/judge-api).

The definitions below are shallow embeddings of the JavaScript source:
  * `parseBatchResult`, `clip`, the `POST /submit` grading logic and
    `recalculateAllRankings` come from `src/judge-api/app.js`;
  * `parseSudokuGrid` / `compareSudokuOutput` come from `src/judge-api/sudoku.js`;
  * the generated C++ harness driver comes from `buildWrappedCode` in
    `src/judge-api/app.js`.
Machine numbers are modelled as `Int`/`Nat` (the JS code only ever holds
integral values in the modelled fields), strings as `List Char`, SQL rows as
structures, and the regex scan of the result parser as the list of its matches
in textual order.
-/

namespace Sdoku

/-- Verdict taxonomy (schema.sql: `status ENUM('PENDING','AC','WA','TLE','RE','CE')`). -/
inductive Verdict
  | PENDING
  | AC
  | WA
  | TLE
  | RE
  | CE
deriving DecidableEq, Repr

/-- One match of the protocol regex
`CASE\s+(\d+)\s+STATUS\s+(-?\d+)\s+TIME_MS\s+(-?\d+)` (app.js line 846).
The captured stdout is modelled as the list of these matches in textual order;
`idx` is a `Nat` because the first group is `\d+` (never negative). -/
structure ProtoLine where
  idx : Nat
  st : Int
  t : Int
deriving DecidableEq, Repr

/-- The two arrays built by `parseBatchResult` (app.js lines 843-858). -/
structure BatchParsed where
  statuses : List (Option Int)
  times : List (Option Int)
deriving DecidableEq, Repr

/-- Body of the `while ((m = re.exec(stdout)) !== null)` loop of
`parseBatchResult`: an in-range index overwrites both slots, an out-of-range
index is ignored.  (`Number.isNaN` can never hold for a `\d+` match, and the
`idx >= 0` test is vacuous for `\d+`, so neither appears here.) -/
def parseStep (caseCount : Nat) (acc : BatchParsed) (m : ProtoLine) : BatchParsed :=
  if m.idx < caseCount then
    { statuses := acc.statuses.set m.idx (some m.st)
      times := acc.times.set m.idx (some m.t) }
  else acc

/-- `parseBatchResult(stdout, caseCount)` (app.js lines 843-858): both arrays
start as `Array(caseCount).fill(null)` and the matches are folded over in
textual order. -/
def parseBatchResult (stdoutLines : List ProtoLine) (caseCount : Nat) : BatchParsed :=
  stdoutLines.foldl (parseStep caseCount)
    { statuses := List.replicate caseCount none
      times := List.replicate caseCount none }

/-- `clip(s, maxLen)` (app.js lines 866-870): return `s` unchanged when it fits,
else its first `maxLen` characters followed by the marker `"\n...[clipped]"`. -/
def clip (s : List Char) (maxLen : Nat) : List Char :=
  if s.length ≤ maxLen then s else s.take maxLen ++ ("\n...[clipped]".toList)

/-! ## Harness driver (generated C++ of `buildWrappedCode`, app.js lines 988-1026)

The untrusted `solveSudoku` call plus the four-step validation chain of one
case is abstracted as a function `runCase : Nat → CaseOutcome` giving the
status code and measured elapsed milliseconds of each case. -/

/-- `struct CaseResult { int status; long long time_ms; }` of the generated
harness. -/
structure CaseOutcome where
  status : Int
  timeMs : Int
deriving DecidableEq, Repr

/-- First loop of the generated `main` (app.js lines 992-1015): every case in
`[0, caseCount)` is evaluated and its result collected; this loop never stops
early. -/
def harnessResults (runCase : Nat → CaseOutcome) (caseCount : Nat) : List CaseOutcome :=
  (List.range caseCount).map runCase

/-- Second loop of the generated `main` (app.js lines 1018-1024): print each
collected result as a protocol line; immediately after printing a line whose
status is nonzero, `return 1`.  Returns the emitted lines and the process exit
code. -/
def emitFrom (i : Nat) : List CaseOutcome → List ProtoLine × Int
  | [] => ([], 0)
  | r :: rest =>
    let line : ProtoLine := ⟨i, r.status, r.timeMs⟩
    if r.status = 0 then
      let k := emitFrom (i + 1) rest
      (line :: k.1, k.2)
    else ([line], 1)

/-- The whole generated `main`: run every case, then report. -/
def harnessRun (runCase : Nat → CaseOutcome) (caseCount : Nat) : List ProtoLine × Int :=
  emitFrom 0 (harnessResults runCase caseCount)

/-! ## Grid codec and standalone comparison (src/judge-api/sudoku.js) -/

/-- Result type of `compareSudokuOutput` (sudoku.js lines 15-29); cells are the
digit characters the JS code keeps. -/
inductive CompareRes
  | invalidFormat
  | mismatch (row col : Nat) (got expected : Char)
  | ok
deriving DecidableEq, Repr

/-- The digit characters of a text, in order (JS: chars with
`ch >= '0' && ch <= '9'`). -/
def digitsOf (text : List Char) : List Char :=
  text.filter Char.isDigit

/-- `parseSudokuGrid(text)` (sudoku.js lines 1-13): collect all digit
characters; fail when fewer than 81; else rows are consecutive 9-slices. -/
def parseSudokuGrid (text : List Char) : Option (List (List Char)) :=
  let digits := digitsOf text
  if digits.length < 81 then none
  else some ((List.range 9).map fun r => (digits.drop (r * 9)).take 9)

/-- Cell access `grid[r][c]` of the 9x9 grids built above (always in range for
parsed grids; the default is irrelevant there). -/
def gridCell (g : List (List Char)) (r c : Nat) : Char :=
  (g.getD r []).getD c '0'

/-- `compareSudokuOutput(userStdout, expectedText)` (sudoku.js lines 15-29):
parse both texts with `parseSudokuGrid`; `invalid_format` when either side
fails; else report the first differing cell in row-major order, else ok.  The
double loop over `r`, `c` is modelled as a scan of the 81 row-major positions. -/
def compareSudokuOutput (userText expectedText : List Char) : CompareRes :=
  match parseSudokuGrid userText, parseSudokuGrid expectedText with
  | some ug, some eg =>
    match (List.range 81).findSome? (fun k =>
      if gridCell ug (k / 9) (k % 9) ≠ gridCell eg (k / 9) (k % 9) then
        some (k / 9, k % 9, gridCell ug (k / 9) (k % 9), gridCell eg (k / 9) (k % 9))
      else none) with
    | some (r, c, a, b) => CompareRes.mismatch r c a b
    | none => CompareRes.ok
  | _, _ => CompareRes.invalidFormat

/-! ## Two-tier codec of app.js (`parseSudoku9x9`, lines 875-901) -/

/-- Numeric value of a digit character (JS `Number(ch)` on a digit). -/
def digitVal (c : Char) : Nat :=
  c.toNat - '0'.toNat

/-- `text.split(/\r?\n/)` (app.js line 877).  Splitting on `'\n'` alone is
faithful here because a `'\r'` left at a line end is removed by the digit
filter applied to every line right after the split. -/
def splitNl : List Char → List (List Char)
  | [] => [[]]
  | c :: rest =>
    if c = '\n' then [] :: splitNl rest
    else
      match splitNl rest with
      | l :: ls => (c :: l) :: ls
      | [] => [[c]]

/-- `parseSudoku9x9(text)` (app.js lines 875-901): line-oriented strategy
first (at least 9 nonempty digit-lines, first 9 each with at least 9 digits),
else flat fallback over all digits (throws below 81 digits, modelled as
`none`). -/
def parseSudoku9x9 (text : List Char) : Option (List (List Nat)) :=
  let lines := ((splitNl text).map digitsOf).filter (fun s => 0 < s.length)
  if 9 ≤ lines.length ∧ (lines.take 9).all (fun s => 9 ≤ s.length) then
    some ((lines.take 9).map fun s => (s.take 9).map digitVal)
  else
    let d := digitsOf text
    if d.length < 81 then none
    else some ((List.range 9).map fun r => ((d.drop (r * 9)).take 9).map digitVal)

/-- Result type of the comparison operation as the specification describes it
(numeric cells, since the two-tier codec produces numbers). -/
inductive CompareResN
  | invalidFormat
  | mismatch (row col : Nat) (got expected : Nat)
  | ok
deriving DecidableEq, Repr

/-- The comparison operation as claim C4 describes it (refinement reference):
parse each text with the two-tier codec `parseSudoku9x9` (line-oriented first,
flat fallback second), fail structurally when either side fails, else report
the first differing row-major cell, else succeed. -/
def compareSudokuClaimed (userText expectedText : List Char) : CompareResN :=
  match parseSudoku9x9 userText, parseSudoku9x9 expectedText with
  | some ug, some eg =>
    match (List.range 81).findSome? (fun k =>
      let a := (ug.getD (k / 9) []).getD (k % 9) 0
      let b := (eg.getD (k / 9) []).getD (k % 9) 0
      if a ≠ b then some (k / 9, k % 9, a, b) else none) with
    | some (r, c, a, b) => CompareResN.mismatch r c a b
    | none => CompareResN.ok
  | _, _ => CompareResN.invalidFormat

/-! ## Grading pipeline (`POST /submit` handler, app.js lines 115-339)

The handler is modelled from the point where the submission record exists
(line 139) to the final `UPDATE submissions` (line 307).  External effects are
inputs: the compile outcome, the single `runWithTime` result, the two
`Date.now()` differences, and whether the `try` block threw. -/

/-- Result of `runWithTime` (app.js lines 719-798), restricted to the fields
the handler reads.  `stdoutLines` is the list of protocol-regex matches in the
captured stdout, in textual order. -/
structure ExecRes where
  timeout : Bool
  exitCode : Int
  stdoutLines : List ProtoLine
  stderr : List Char
  execTimeMs : Option Int
  memoryKb : Option Int
deriving Repr

/-- Inputs of one grading request, from the point where problem, cases and the
submission row exist.  `cases` is the list of test-case ids in `ORDER BY id`
order.  `execWallMs` is `Date.now() - execStartedAt` (line 183's fallback) and
`wallTotalMs` is `Date.now() - startedAt` as read at line 258.  `orchError` is
`some e` when the `try` block threw `e` (I/O failure, spawn failure, a crash
in wrapping or parsing, a failed insert). -/
structure GradeInput where
  cases : List Nat
  compileOk : Bool
  execRes : ExecRes
  totalLimitMs : Int
  execWallMs : Int
  wallTotalMs : Int
  orchError : Option (List Char)
deriving Repr

/-- One `submission_results` row as the handler inserts it (only the claim
relevant columns). -/
structure RowIns where
  testCaseId : Nat
  status : Verdict
  execTimeMs : Option Int
  stderr : List Char
deriving DecidableEq, Repr

/-- State carried out of the per-case loop (app.js lines 201-243). -/
structure LoopOut where
  overall : Verdict
  rows : List RowIns
  totalExec : Int
deriving Repr

/-- Per-case status mapping (app.js lines 204-207): a runner timeout forces
`TLE`, a parsed status of exactly `0` gives `AC`, anything else — including a
never-reported case whose parsed status is `null` — gives `WA`. -/
def caseStatus (timeout : Bool) (st : Option Int) : Verdict :=
  if timeout then Verdict.TLE
  else if st = some 0 then Verdict.AC
  else Verdict.WA

/-- The `for (let i = 0; i < cases.length; i++)` loop (app.js lines 201-243)
over the case ids zipped with the parsed statuses and times: collect one
insert row per case, stop right after the first non-`AC` case, accumulate
`totalExecTimeMs` over `AC` cases with a positive parsed time, and let the
first non-`AC` status fix `overall`. -/
def gradeCases (timeout : Bool) (sErr : List Char) :
    List (Nat × Option Int × Option Int) → LoopOut
  | [] => ⟨Verdict.AC, [], 0⟩
  | (cid, st, tm) :: rest =>
    let status := caseStatus timeout st
    let row : RowIns := ⟨cid, status, tm, sErr⟩
    if status = Verdict.AC then
      let r := gradeCases timeout sErr rest
      ⟨r.overall, row :: r.rows,
        (match tm with | some t => if 0 < t then t else 0 | none => 0) + r.totalExec⟩
    else ⟨status, [row], 0⟩

/-- What the handler persists for one submission: the final verdict and
`exec_time_ms` / `memory_kb` written at line 305-308, the inserted
`submission_results` rows, and the intermediate aggregates. -/
structure GradeOutput where
  overall : Verdict
  rows : List RowIns
  execTimeForDb : Int
  memKb : Option Int
  totalExec : Int
  totalElapsedMs : Int
deriving Repr

/-- `execElapsedMs` (app.js line 183): the runner's measured CPU time when
present, else the wall-clock duration of the run. -/
def execElapsedOf (inp : GradeInput) : Int :=
  inp.execRes.execTimeMs.getD inp.execWallMs

/-- Truth of `v != null && v > 0` for an optional number. -/
def optPos : Option Int → Bool
  | some t => 0 < t
  | none => false

/-- The parsed batch result of the single run (app.js line 184). -/
def parsedOf (inp : GradeInput) : BatchParsed :=
  parseBatchResult inp.execRes.stdoutLines inp.cases.length

/-- `validTimes` (app.js line 187): the parsed times that are non-null and
positive. -/
def validTimesOf (inp : GradeInput) : List Int :=
  (parsedOf inp).times.filterMap fun t =>
    match t with
    | some v => if 0 < v then some v else none
    | none => none

/-- `maxCaseTimeMs` (app.js line 188): `Math.max(...validTimes)`, `0` when the
list is empty. -/
def maxCaseOf (inp : GradeInput) : Int :=
  ((validTimesOf inp).max?).getD 0

/-- `maxMemKb` as first set at lines 191-193: the runner's memory when
non-null and positive, else still `null`. -/
def memKb0Of (inp : GradeInput) : Option Int :=
  match inp.execRes.memoryKb with
  | some m => if 0 < m then some m else none
  | none => none

/-- The case ids zipped with their parsed statuses and times — the data the
per-case loop iterates over. -/
def zsOf (inp : GradeInput) : List (Nat × Option Int × Option Int) :=
  inp.cases.zip ((parsedOf inp).statuses.zip (parsedOf inp).times)

/-- The per-case loop of app.js lines 201-243 applied to this request. -/
def loopOf (inp : GradeInput) : LoopOut :=
  gradeCases inp.execRes.timeout (clip inp.execRes.stderr 20000) (zsOf inp)

/-- The final verdict after the total-time override (app.js line 262): the
override to `TLE` applies only when the loop left `overall` at `AC`. -/
def overallOf (inp : GradeInput) : Verdict :=
  if (loopOf inp).overall = Verdict.AC ∧
      (inp.execRes.timeout = true ∨ inp.totalLimitMs < execElapsedOf inp) then
    Verdict.TLE
  else (loopOf inp).overall

/-- The stored execution time (app.js lines 284-295): the priority chain runs
only under `overall === 'AC'`; otherwise the total wall-clock time stands. -/
def execTimeForDbOf (inp : GradeInput) : Int :=
  if overallOf inp = Verdict.AC then
    if 0 < (loopOf inp).totalExec then (loopOf inp).totalExec
    else if optPos inp.execRes.execTimeMs then inp.execRes.execTimeMs.getD 0
    else if 0 < maxCaseOf inp then maxCaseOf inp
    else inp.wallTotalMs
  else inp.wallTotalMs

/-- The stored memory (app.js lines 191-193 and 298-300): the late fix-up is
also gated on a final `AC`. -/
def memKbOf (inp : GradeInput) : Option Int :=
  if (memKb0Of inp = none ∨ memKb0Of inp = some 0) ∧ overallOf inp = Verdict.AC ∧
      optPos inp.execRes.memoryKb then
    inp.execRes.memoryKb
  else memKb0Of inp

/-- The grading request from compile to the final submission update
(app.js lines 161-308).

* `orchError = some e` is the `catch` branch (lines 267-274): verdict `RE`,
  one row against the first case with the clipped error text.  On that path
  `totalElapsedMs` was never assigned (line 258 is unreached), so the stored
  execution time is the initial `0`.
* compile failure (lines 167-178): verdict `CE`, one empty-diagnostic row
  against the first case, stored time again the initial `0`.
* otherwise: parse the batched stdout, run the per-case loop, apply the
  total-time override, and store the time/memory picked above. -/
def gradeSubmission (inp : GradeInput) : GradeOutput :=
  match inp.orchError with
  | some e =>
    { overall := Verdict.RE
      rows := [⟨inp.cases.headD 0, Verdict.RE, none, clip e 20000⟩]
      execTimeForDb := 0
      memKb := none
      totalExec := 0
      totalElapsedMs := 0 }
  | none =>
    if inp.compileOk = false then
      { overall := Verdict.CE
        rows := [⟨inp.cases.headD 0, Verdict.CE, none, []⟩]
        execTimeForDb := 0
        memKb := none
        totalExec := 0
        totalElapsedMs := 0 }
    else
      { overall := overallOf inp
        rows := (loopOf inp).rows
        execTimeForDb := execTimeForDbOf inp
        memKb := memKbOf inp
        totalExec := (loopOf inp).totalExec
        totalElapsedMs := inp.wallTotalMs }

/-! ## Ranking engine (`recalculateAllRankings`, app.js lines 478-669)

The relevant tables are modelled as lists; the list order of `users` stands
for the table scan order, which also fixes the (otherwise unspecified) order
of full ties in the `ORDER BY` of the ranking query. -/

/-- A `users` row (schema.sql): aggregates and rank are nullable. -/
structure UserRow where
  id : Nat
  totalTimeMs : Option Int
  totalMemoryKb : Option Int
  rank : Option Nat
deriving DecidableEq, Repr

/-- A `submissions` row, restricted to the columns the ranking engine reads. -/
structure SubmissionRow where
  id : Nat
  userId : Nat
  problemId : Nat
  status : Verdict
  memoryKb : Option Int
deriving DecidableEq, Repr

/-- A `submission_results` row, restricted to the columns the ranking engine
reads. -/
structure ResultRow where
  submissionId : Nat
  status : Verdict
  execTimeMs : Option Int
deriving DecidableEq, Repr

/-- The database state the ranking engine works on. -/
structure JudgeDB where
  problems : List Nat
  users : List UserRow
  submissions : List SubmissionRow
  results : List ResultRow
deriving Repr

/-- A user's `AC` submissions (`WHERE user_id=? AND status='AC'`). -/
def acSubs (db : JudgeDB) (uid : Nat) : List SubmissionRow :=
  db.submissions.filter fun s => s.userId == uid && s.status == Verdict.AC

/-- `SELECT DISTINCT problem_id` over a user's `AC` submissions. -/
def acProblemIds (db : JudgeDB) (uid : Nat) : List Nat :=
  ((acSubs db uid).map (fun s => s.problemId)).dedup

/-- `COUNT(DISTINCT s.problem_id) ... AND s.status = 'AC'` — the solved-problem
count used both to qualify users and as the first ranking key. -/
def solvedCount (db : JudgeDB) (uid : Nat) : Nat :=
  (acProblemIds db uid).length

/-- The user's earliest `AC` submission for a problem
(`ORDER BY s.id ASC LIMIT 1`, app.js lines 551-558). -/
def earliestAcSub (db : JudgeDB) (uid pid : Nat) : Option SubmissionRow :=
  ((db.submissions.filter fun s =>
      s.userId == uid && s.problemId == pid && s.status == Verdict.AC).insertionSort
    (fun a b => a.id ≤ b.id)).head?

/-- `SUM(sr.exec_time_ms) ... WHERE sr.submission_id = ? AND sr.status = 'AC'
AND sr.exec_time_ms IS NOT NULL AND sr.exec_time_ms > 0` (app.js lines
567-572); an empty sum (SQL `NULL`) leaves the accumulator `0` either way. -/
def problemTimeOf (db : JudgeDB) (sid : Nat) : Int :=
  ((db.results.filter fun r =>
      r.submissionId == sid && r.status == Verdict.AC && optPos r.execTimeMs).map
    fun r => r.execTimeMs.getD 0).sum

/-- `submissions.memory_kb` of the picked submission when non-null and
positive, else `0` (app.js lines 581-588). -/
def problemMemoryOf (s : SubmissionRow) : Int :=
  match s.memoryKb with
  | some m => if 0 < m then m else 0
  | none => 0

/-- The recomputed aggregate time of a user (app.js lines 522-604): over each
distinct `AC` problem, the positive `AC` per-case times of the earliest `AC`
submission. -/
def computedTime (db : JudgeDB) (uid : Nat) : Int :=
  ((acProblemIds db uid).map fun pid =>
    match earliestAcSub db uid pid with
    | some s => problemTimeOf db s.id
    | none => 0).sum

/-- The recomputed aggregate memory of a user (same loop as `computedTime`). -/
def computedMem (db : JudgeDB) (uid : Nat) : Int :=
  ((acProblemIds db uid).map fun pid =>
    match earliestAcSub db uid pid with
    | some s => problemMemoryOf s
    | none => 0).sum

/-- `UPDATE users SET rank=NULL, total_time_ms=NULL, total_memory_kb=NULL`. -/
def clearUser (u : UserRow) : UserRow :=
  { u with rank := none, totalTimeMs := none, totalMemoryKb := none }

/-- `UPDATE users SET rank=NULL` (app.js line 494). -/
def resetRanks (db : JudgeDB) : JudgeDB :=
  { db with users := db.users.map fun u => { u with rank := none } }

/-- The per-user aggregate pass (app.js lines 518-623): each qualified user's
aggregates are recomputed, but a user whose recomputed time is `0` is skipped
(`continue`) and keeps whatever aggregates were stored before.  The pass reads
only `submissions`/`submission_results`, so mapping over the users is exact. -/
def phaseAggregates (db : JudgeDB) : JudgeDB :=
  { db with users := db.users.map fun u =>
      if 0 < solvedCount db u.id ∧ computedTime db u.id ≠ 0 then
        { u with totalTimeMs := some (computedTime db u.id)
                 totalMemoryKb := some (computedMem db u.id) }
      else u }

/-- MySQL ascending comparison of a nullable column: `NULL` sorts first. -/
def optIntLE : Option Int → Option Int → Bool
  | none, _ => true
  | some _, none => false
  | some a, some b => decide (a ≤ b)

/-- The three-key order of the ranking query (app.js lines 630-636):
solved-count descending, then aggregate time ascending, then aggregate memory
ascending. -/
def rankLE (db : JudgeDB) (a b : UserRow) : Bool :=
  if solvedCount db a.id ≠ solvedCount db b.id then
    decide (solvedCount db b.id < solvedCount db a.id)
  else if a.totalTimeMs ≠ b.totalTimeMs then optIntLE a.totalTimeMs b.totalTimeMs
  else optIntLE a.totalMemoryKb b.totalMemoryKb

/-- The ranking query (app.js lines 630-636): all users whose stored aggregate
time is non-null — qualified or not — sorted by the three keys. -/
def rankedList (db : JudgeDB) : List UserRow :=
  (db.users.filter fun u => u.totalTimeMs.isSome).insertionSort
    (fun a b => rankLE db a b = true)

/-- The rank-assignment loop (app.js lines 640-645): the user at position `i`
of the ranking query receives rank `i + 1`; everyone else keeps the `NULL`
written by the reset. -/
def phaseAssignRanks (db : JudgeDB) : JudgeDB :=
  let ranked := rankedList db
  { db with users := db.users.map fun u =>
      match ranked.findIdx? (fun r => r.id == u.id) with
      | some i => { u with rank := some (i + 1) }
      | none => u }

/-- The final exclusion update (app.js lines 649-657): users with zero `AC`
problems get `NULL` rank and aggregates. -/
def phaseExclude (db : JudgeDB) : JudgeDB :=
  { db with users := db.users.map fun u =>
      if solvedCount db u.id = 0 then clearUser u else u }

/-- `recalculateAllRankings` (app.js lines 478-669): with no problems, clear
everything; otherwise reset ranks, recompute aggregates, assign ranks over the
users with non-null stored time, then null out unqualified users. -/
def recalculateAllRankings (db : JudgeDB) : JudgeDB :=
  if db.problems = [] then { db with users := db.users.map clearUser }
  else phaseExclude (phaseAssignRanks (phaseAggregates (resetRanks db)))

/-! ## Lemmas about the result parser -/

/-- The textually last protocol line reporting case `i`. -/
def lastReportFor (ms : List ProtoLine) (i : Nat) : Option ProtoLine :=
  (ms.filter fun m => m.idx == i).getLast?

lemma parseFold_length (n : Nat) (ms : List ProtoLine) (acc : BatchParsed) :
    (ms.foldl (parseStep n) acc).statuses.length = acc.statuses.length ∧
    (ms.foldl (parseStep n) acc).times.length = acc.times.length := by
  induction ms generalizing acc with
  | nil => exact ⟨rfl, rfl⟩
  | cons m ms ih =>
    simp only [List.foldl_cons]
    refine ⟨((ih _).1).trans ?_, ((ih _).2).trans ?_⟩ <;>
      (unfold parseStep; split <;> simp)

lemma parseBatchResult_statuses_length (ms : List ProtoLine) (n : Nat) :
    (parseBatchResult ms n).statuses.length = n := by
  have h := (parseFold_length n ms
    { statuses := List.replicate n none, times := List.replicate n none }).1
  simpa [parseBatchResult] using h

lemma parseBatchResult_times_length (ms : List ProtoLine) (n : Nat) :
    (parseBatchResult ms n).times.length = n := by
  have h := (parseFold_length n ms
    { statuses := List.replicate n none, times := List.replicate n none }).2
  simpa [parseBatchResult] using h

/-- Full characterization of `parseBatchResult`: every in-range slot holds
exactly the status/time of the textually last protocol line for that index
(and `null` when no such line exists). -/
lemma parseBatchResult_spec (ms : List ProtoLine) (n i : Nat) (h : i < n) :
    (parseBatchResult ms n).statuses[i]? = some ((lastReportFor ms i).map (fun m => m.st)) ∧
    (parseBatchResult ms n).times[i]? = some ((lastReportFor ms i).map (fun m => m.t)) := by
  induction ms using List.reverseRecOn with
  | nil =>
    constructor <;> simp [parseBatchResult, lastReportFor, List.getElem?_replicate, h]
  | append_singleton l a ih =>
    have hfold : parseBatchResult (l ++ [a]) n = parseStep n (parseBatchResult l n) a := by
      simp [parseBatchResult, List.foldl_append]
    rw [hfold]
    unfold parseStep
    by_cases ha : a.idx < n
    · simp only [if_pos ha]
      by_cases hai : a.idx = i
      · subst hai
        have hs : (parseBatchResult l n).statuses.length = n :=
          parseBatchResult_statuses_length l n
        have ht : (parseBatchResult l n).times.length = n :=
          parseBatchResult_times_length l n
        constructor
        · rw [List.getElem?_set_self (by rw [hs]; exact ha)]
          simp [lastReportFor, List.filter_append, List.getLast?_append]
        · rw [List.getElem?_set_self (by rw [ht]; exact ha)]
          simp [lastReportFor, List.filter_append, List.getLast?_append]
      · have hfilter : lastReportFor (l ++ [a]) i = lastReportFor l i := by
          simp [lastReportFor, List.filter_append, hai]
        rw [hfilter]
        exact ⟨(List.getElem?_set_ne hai).trans ih.1, (List.getElem?_set_ne hai).trans ih.2⟩
    · simp only [if_neg ha]
      have hai : a.idx ≠ i := fun he => ha (he ▸ h)
      have hfilter : lastReportFor (l ++ [a]) i = lastReportFor l i := by
        simp [lastReportFor, List.filter_append, hai]
      rw [hfilter]
      exact ih

/-- C5: for every captured stdout and case count, (i) a protocol line whose
index is outside `[0, caseCount)` is ignored, (ii) every in-range slot records
the status and time of the textually last line for that index (later lines
win), and (iii) an index never reported stays `null`/`null`. -/
theorem claim5_batch_scan (ms : List ProtoLine) (n i : Nat) (h : i < n) :
    (∀ m : ProtoLine, n ≤ m.idx → parseBatchResult (ms ++ [m]) n = parseBatchResult ms n) ∧
    (parseBatchResult ms n).statuses[i]? = some ((lastReportFor ms i).map (fun m => m.st)) ∧
    (parseBatchResult ms n).times[i]? = some ((lastReportFor ms i).map (fun m => m.t)) := by
  refine ⟨fun m hm => ?_, parseBatchResult_spec ms n i h⟩
  simp [parseBatchResult, List.foldl_append, parseStep, Nat.not_lt.mpr hm]

/-- Protocol lines used to exercise `claim5_batch_scan`: index 0 is reported twice
with different statuses, and one line refers to the out-of-range index 5. -/
def demoLines : List ProtoLine :=
  [⟨0, 1, 10⟩, ⟨0, 2, 20⟩, ⟨5, 0, 1⟩]

/-- Witness for `claim5_batch_scan` at `caseCount = 3`: the duplicate index 0
resolves to the later line (status 2, time 20), the out-of-range line for
index 5 changes nothing, and the never-reported index 1 stays null. -/
theorem claim5_batch_scan_witness :
    (parseBatchResult (demoLines ++ [⟨7, 0, 1⟩]) 3 = parseBatchResult demoLines 3) ∧
    (parseBatchResult demoLines 3).statuses[0]? = some (some 2) ∧
    (parseBatchResult demoLines 3).times[0]? = some (some 20) ∧
    (parseBatchResult demoLines 3).statuses[1]? = some none := by
  have h0 := claim5_batch_scan demoLines 3 0 (by decide)
  have h1 := claim5_batch_scan demoLines 3 1 (by decide)
  refine ⟨h0.1 ⟨7, 0, 1⟩ (by decide), ?_, ?_, ?_⟩
  · rw [h0.2.1]; rfl
  · rw [h0.2.2]; rfl
  · rw [h1.2.1]; rfl

/-! ## Lemmas about the harness driver -/

/-- The protocol lines for a block of consecutive case results starting at
index `i`. -/
def linesOf : Nat → List CaseOutcome → List ProtoLine
  | _, [] => []
  | i, r :: rest => ⟨i, r.status, r.timeMs⟩ :: linesOf (i + 1) rest

/-- The results the reporting loop actually prints: the cases up to and
including the first one whose status is nonzero (everything when all pass,
since then `take` runs off the end). -/
def reportedPrefix (rs : List CaseOutcome) : List CaseOutcome :=
  rs.take ((rs.takeWhile fun r => r.status == 0).length + 1)

lemma emitFrom_eq (i : Nat) (rs : List CaseOutcome) :
    emitFrom i rs =
      (linesOf i (reportedPrefix rs),
        if (rs.takeWhile fun r => r.status == 0).length = rs.length then 0 else 1) := by
  induction rs generalizing i with
  | nil => simp [emitFrom, linesOf, reportedPrefix]
  | cons r rest ih =>
    by_cases h : r.status = 0
    · have htw : ((r :: rest).takeWhile fun r => r.status == 0)
          = r :: (rest.takeWhile fun r => r.status == 0) := by
        simp [List.takeWhile_cons, h]
      by_cases hall : (rest.takeWhile fun r => r.status == 0).length = rest.length
      · simp [emitFrom, h, ih, htw, reportedPrefix, linesOf, hall]
      · simp [emitFrom, h, ih, htw, reportedPrefix, linesOf, hall]
    · have htw : ((r :: rest).takeWhile fun r => r.status == 0) = [] := by
        simp [List.takeWhile_cons, h]
      simp [emitFrom, h, htw, reportedPrefix, linesOf]

lemma takeWhile_length_eq_iff (rs : List CaseOutcome) :
    ((rs.takeWhile fun r => r.status == 0).length = rs.length) ↔
      ∀ r ∈ rs, r.status = 0 := by
  induction rs with
  | nil => simp
  | cons r rest ih =>
    by_cases h : r.status = 0
    · simpa [List.takeWhile_cons, h] using ih
    · constructor
      · intro hc
        simp [List.takeWhile_cons, h] at hc
      · intro hall
        exact absurd (hall r (by simp)) h

/-- C3 (amended): the generated driver evaluates every case (its first loop
never stops early), then reports protocol lines only for the cases up to and
including the first failure, and the process exit code is `0` iff every case
passed and `1` — not the failing case's status code — otherwise. -/
theorem claim3_harness_behavior (f : Nat → CaseOutcome) (n : Nat) :
    (harnessResults f n).length = n ∧
    (harnessRun f n).1 = linesOf 0 (reportedPrefix (harnessResults f n)) ∧
    ((harnessRun f n).2 = 0 ↔ ∀ r ∈ harnessResults f n, r.status = 0) ∧
    ((¬ ∀ r ∈ harnessResults f n, r.status = 0) → (harnessRun f n).2 = 1) := by
  have hrun : harnessRun f n = emitFrom 0 (harnessResults f n) := rfl
  rw [hrun, emitFrom_eq]
  refine ⟨by simp [harnessResults], rfl, ?_, ?_⟩
  · rw [← takeWhile_length_eq_iff]
    constructor
    · intro h0
      by_contra hne
      simp [if_neg hne] at h0
    · intro heq
      simp [if_pos heq]
  · intro hnot
    rw [← takeWhile_length_eq_iff] at hnot
    simp [if_neg hnot]

/-- Case outcomes where case 0 passes, case 1 fails with status 2, case 2
would pass — used against claim C3. -/
def outcome3 : Nat → CaseOutcome := fun i => if i = 1 then ⟨2, 1⟩ else ⟨0, 1⟩

/-- Counterexample to C3 as stated: with case 1 the first failure (status 2),
the harness still evaluates case 2 (all three results exist), and the process
exit code is `1`, not the failing case's status code `2`. -/
theorem claim3_counterexample :
    harnessResults outcome3 3 = [⟨0, 1⟩, ⟨2, 1⟩, ⟨0, 1⟩] ∧
    (harnessRun outcome3 3).1 = [⟨0, 0, 1⟩, ⟨1, 2, 1⟩] ∧
    (harnessRun outcome3 3).2 = 1 ∧ (harnessRun outcome3 3).2 ≠ 2 := by
  decide

/-- Witness for `claim3_harness_behavior` at the `outcome3` scenario. -/
theorem claim3_harness_behavior_witness :
    (¬ ∀ r ∈ harnessResults outcome3 3, r.status = 0) ∧ (harnessRun outcome3 3).2 = 1 := by
  have h := claim3_harness_behavior outcome3 3
  have hnot : ¬ ∀ r ∈ harnessResults outcome3 3, r.status = 0 := by decide
  exact ⟨hnot, h.2.2.2 hnot⟩

/-! ## Lemmas about the standalone comparison (claim C4) -/

/-- The first position (row-major, among the 81 grid cells) where the digit
streams of the two texts differ, with both digit characters. -/
def firstDigitDiff (u e : List Char) : Option (Nat × Char × Char) :=
  (List.range 81).findSome? fun k =>
    if (digitsOf u).getD k '0' ≠ (digitsOf e).getD k '0' then
      some (k, (digitsOf u).getD k '0', (digitsOf e).getD k '0')
    else none

lemma findSome?_congr {α β : Type} {f g : α → Option β} {l : List α}
    (h : ∀ a ∈ l, f a = g a) : l.findSome? f = l.findSome? g := by
  induction l with
  | nil => rfl
  | cons a l ih =>
    rw [List.findSome?_cons, List.findSome?_cons, h a (by simp)]
    cases g a with
    | none => exact ih fun a ha => h a (by simp [ha])
    | some b => rfl

lemma findSome?_option_map {α β γ : Type} (g : β → γ) (f : α → Option β) (l : List α) :
    l.findSome? (fun a => (f a).map g) = (l.findSome? f).map g := by
  induction l with
  | nil => rfl
  | cons a l ih =>
    rw [List.findSome?_cons, List.findSome?_cons]
    cases f a with
    | none => simpa using ih
    | some b => rfl

lemma gridCell_flat (d : List Char) (k : Nat) (hk : k < 81) :
    gridCell ((List.range 9).map fun r => (d.drop (r * 9)).take 9) (k / 9) (k % 9)
      = d.getD k '0' := by
  have hr : k / 9 < 9 := by omega
  have hc : k % 9 < 9 := by omega
  have hx : k / 9 * 9 + k % 9 = k := by omega
  unfold gridCell
  simp only [List.getD_eq_getElem?_getD, List.getElem?_map, List.getElem?_range hr,
    Option.map_some', Option.getD_some, List.getElem?_take_of_lt hc, List.getElem?_drop]
  rw [hx]

/-- C4 (amended): the standalone comparison parses each side by stripping all
non-digit characters from the whole text (the flat strategy only — the
line-oriented tier of the two-tier codec is not used): it reports an
invalid-format failure when either side has fewer than 81 digit characters,
otherwise the first differing row-major cell with both digit values, otherwise
success. -/
theorem claim4_compare_flat (u e : List Char) :
    ((digitsOf u).length < 81 ∨ (digitsOf e).length < 81 →
      compareSudokuOutput u e = CompareRes.invalidFormat) ∧
    (81 ≤ (digitsOf u).length → 81 ≤ (digitsOf e).length →
      (match firstDigitDiff u e with
       | none => compareSudokuOutput u e = CompareRes.ok
       | some (k, a, b) => compareSudokuOutput u e = CompareRes.mismatch (k / 9) (k % 9) a b)) := by
  constructor
  · intro hbad
    unfold compareSudokuOutput parseSudokuGrid
    rcases hbad with hu | he
    · rw [if_pos hu]
    · rw [if_pos he]
      rcases hf : (if (digitsOf u).length < 81 then none
          else some ((List.range 9).map fun r => ((digitsOf u).drop (r * 9)).take 9)) with _ | g
      · rfl
      · rfl
  · intro hu he
    have hgu : parseSudokuGrid u
        = some ((List.range 9).map fun r => ((digitsOf u).drop (r * 9)).take 9) := by
      unfold parseSudokuGrid
      rw [if_neg (by omega)]
    have hge : parseSudokuGrid e
        = some ((List.range 9).map fun r => ((digitsOf e).drop (r * 9)).take 9) := by
      unfold parseSudokuGrid
      rw [if_neg (by omega)]
    have hcells : ∀ k ∈ List.range 81,
        (if gridCell ((List.range 9).map fun r => ((digitsOf u).drop (r * 9)).take 9) (k / 9) (k % 9)
              ≠ gridCell ((List.range 9).map fun r => ((digitsOf e).drop (r * 9)).take 9) (k / 9) (k % 9) then
            some (k / 9, k % 9,
              gridCell ((List.range 9).map fun r => ((digitsOf u).drop (r * 9)).take 9) (k / 9) (k % 9),
              gridCell ((List.range 9).map fun r => ((digitsOf e).drop (r * 9)).take 9) (k / 9) (k % 9))
          else none)
        = ((if (digitsOf u).getD k '0' ≠ (digitsOf e).getD k '0' then
              some (k, (digitsOf u).getD k '0', (digitsOf e).getD k '0')
            else none).map fun p => (p.1 / 9, p.1 % 9, p.2.1, p.2.2)) := by
      intro k hk
      have hk81 : k < 81 := List.mem_range.mp hk
      rw [gridCell_flat (digitsOf u) k hk81, gridCell_flat (digitsOf e) k hk81]
      by_cases hne : (digitsOf u).getD k '0' ≠ (digitsOf e).getD k '0'
      · rw [if_pos hne, if_pos hne]; rfl
      · rw [if_neg hne, if_neg hne]; rfl
    have hmain : compareSudokuOutput u e
        = match (List.range 81).findSome? (fun k =>
            if gridCell ((List.range 9).map fun r => ((digitsOf u).drop (r * 9)).take 9) (k / 9) (k % 9)
                ≠ gridCell ((List.range 9).map fun r => ((digitsOf e).drop (r * 9)).take 9) (k / 9) (k % 9) then
              some (k / 9, k % 9,
                gridCell ((List.range 9).map fun r => ((digitsOf u).drop (r * 9)).take 9) (k / 9) (k % 9),
                gridCell ((List.range 9).map fun r => ((digitsOf e).drop (r * 9)).take 9) (k / 9) (k % 9))
            else none) with
          | some (r, c, a, b) => CompareRes.mismatch r c a b
          | none => CompareRes.ok := by
      unfold compareSudokuOutput
      rw [hgu, hge]
    rw [findSome?_congr hcells, findSome?_option_map] at hmain
    have heq : firstDigitDiff u e = List.findSome? (fun k =>
        if (digitsOf u).getD k '0' ≠ (digitsOf e).getD k '0' then
          some (k, (digitsOf u).getD k '0', (digitsOf e).getD k '0')
        else none) (List.range 81) := rfl
    rw [← heq] at hmain
    rcases hdiff : firstDigitDiff u e with _ | ⟨k, a, b⟩
    · show compareSudokuOutput u e = CompareRes.ok
      rw [hdiff] at hmain
      simpa using hmain
    · show compareSudokuOutput u e = CompareRes.mismatch (k / 9) (k % 9) a b
      rw [hdiff] at hmain
      simpa using hmain

/-- User text against claim C4: nine lines of ten digits each.  The two-tier
codec reads each line's first nine digits; the flat parser reads the first 81
digits straight through, shifting every row after the first. -/
def userText4 : List Char :=
  List.intercalate ['\n'] (List.replicate 9 ("1234567890".toList))

/-- Expected text against claim C4: nine lines of nine digits. -/
def expText4 : List Char :=
  List.intercalate ['\n'] (List.replicate 9 ("123456789".toList))

/-- Counterexample to C4 as stated: on these texts the claimed behavior (parse
with the two-tier codec, line-oriented first) yields success, but
`compareSudokuOutput` — which parses flat-only — reports a mismatch at row 1,
column 0. -/
theorem claim4_counterexample :
    compareSudokuClaimed userText4 expText4 = CompareResN.ok ∧
    compareSudokuOutput userText4 expText4 = CompareRes.mismatch 1 0 '0' '1' := by
  constructor <;> decide

/-- Witness for `claim4_compare_flat`: two 81-digit texts that agree compare
as `ok`, and dropping below 81 digits on one side is an invalid format. -/
theorem claim4_compare_flat_witness :
    compareSudokuOutput expText4 expText4 = CompareRes.ok ∧
    compareSudokuOutput ("12345".toList) expText4 = CompareRes.invalidFormat := by
  constructor
  · have h := (claim4_compare_flat expText4 expText4).2 (by decide) (by decide)
    rw [show firstDigitDiff expText4 expText4 = none by decide] at h
    exact h
  · exact (claim4_compare_flat ("12345".toList) expText4).1 (by decide)

/-! ## Lemmas about `clip` and the orchestration-error path (claim C9) -/

lemma clip_marker_length : ("\n...[clipped]".toList).length = 13 := rfl

lemma clip_length_of_long (s : List Char) (maxLen : Nat) (h : maxLen < s.length) :
    (clip s maxLen).length = maxLen + 13 := by
  unfold clip
  rw [if_neg (by omega)]
  rw [List.length_append, List.length_take, clip_marker_length]
  omega

lemma clip_length_le (s : List Char) (maxLen : Nat) :
    (clip s maxLen).length ≤ maxLen + 13 := by
  unfold clip
  split
  · omega
  · rw [List.length_append, List.length_take, clip_marker_length]
    omega

/-- A 20001-character diagnostic text. -/
def longErr : List Char := List.replicate 20001 'a'

/-- Counterexample to C9 as stated: a 20001-character diagnostic is persisted
as 20013 characters (the first 20000 plus the 13-character marker
`"\n...[clipped]"`), so the persisted text is not capped to 20000 characters. -/
theorem claim9_counterexample :
    20000 < (clip longErr 20000).length := by
  have hlen : longErr.length = 20001 := by
    rw [show longErr = List.replicate 20001 'a' from rfl, List.length_replicate]
  have h := clip_length_of_long longErr 20000 (by omega)
  omega

/-- C9 (amended): when the `try` block of the grading request throws, the
final verdict is `RE` and exactly one result row is recorded, against the
first test case, whose diagnostic is the error text truncated to its first
20000 characters plus a fixed 13-character marker when it is longer than
20000 — so the persisted diagnostic is at most 20013 characters, not 20000. -/
theorem claim9_re_row (inp : GradeInput) (e : List Char)
    (herr : inp.orchError = some e) (_hc : inp.cases ≠ []) :
    (gradeSubmission inp).overall = Verdict.RE ∧
    (gradeSubmission inp).rows = [⟨inp.cases.headD 0, Verdict.RE, none, clip e 20000⟩] ∧
    (gradeSubmission inp).rows.length = 1 ∧
    (∀ r ∈ (gradeSubmission inp).rows, r.stderr.length ≤ 20013) := by
  unfold gradeSubmission
  rw [herr]
  refine ⟨rfl, rfl, rfl, ?_⟩
  intro r hr
  simp only [List.mem_singleton] at hr
  subst hr
  simpa using clip_length_le e 20000

/-- A runner result never produced (the orchestration failed). -/
def execResDummy : ExecRes :=
  { timeout := false, exitCode := 0, stdoutLines := [], stderr := [],
    execTimeMs := none, memoryKb := none }

/-- A grading request whose orchestration threw a 20001-character error. -/
def inpRE : GradeInput :=
  { cases := [1], compileOk := true, execRes := execResDummy,
    totalLimitMs := 90000, execWallMs := 0, wallTotalMs := 0,
    orchError := some longErr }

/-- Witness for `claim9_re_row` on the concrete request `inpRE`. -/
theorem claim9_re_row_witness :
    (gradeSubmission inpRE).overall = Verdict.RE ∧
    (gradeSubmission inpRE).rows.length = 1 := by
  have hc : inpRE.cases ≠ [] := by
    rw [show inpRE.cases = [1] from rfl]
    exact List.cons_ne_nil 1 []
  have h := claim9_re_row inpRE longErr rfl hc
  exact ⟨h.1, h.2.2.1⟩

/-! ## Lemmas about the per-case grading loop -/

/-- The insert row the loop builds for one zipped case entry. -/
def rowOf (timeout : Bool) (sErr : List Char) (z : Nat × Option Int × Option Int) : RowIns :=
  ⟨z.1, caseStatus timeout z.2.1, z.2.2, sErr⟩

/-- The sum, over the recorded rows whose status is `AC`, of their positive
recorded elapsed times — the specification's reading of `totalExecTimeMs`. -/
def acRowTimeSum (rows : List RowIns) : Int :=
  (rows.map fun r =>
    if r.status = Verdict.AC then
      match r.execTimeMs with
      | some t => if 0 < t then t else 0
      | none => 0
    else 0).sum

lemma gradeCases_cons (t : Bool) (sErr : List Char) (cid : Nat) (st tm : Option Int)
    (rest : List (Nat × Option Int × Option Int)) :
    gradeCases t sErr ((cid, st, tm) :: rest) =
      if caseStatus t st = Verdict.AC then
        ⟨(gradeCases t sErr rest).overall,
         ⟨cid, caseStatus t st, tm, sErr⟩ :: (gradeCases t sErr rest).rows,
         (match tm with | some v => if 0 < v then v else 0 | none => 0)
           + (gradeCases t sErr rest).totalExec⟩
      else ⟨caseStatus t st, [⟨cid, caseStatus t st, tm, sErr⟩], 0⟩ := by
  rw [gradeCases.eq_def]

lemma gradeCases_rows_eq (t : Bool) (sErr : List Char)
    (zs : List (Nat × Option Int × Option Int)) :
    (gradeCases t sErr zs).rows =
      (zs.take ((zs.takeWhile fun z => caseStatus t z.2.1 == Verdict.AC).length + 1)).map
        (rowOf t sErr) := by
  induction zs with
  | nil => rfl
  | cons z rest ih =>
    rcases z with ⟨cid, st, tm⟩
    rw [gradeCases_cons]
    by_cases h : caseStatus t st = Verdict.AC
    · have hb : (caseStatus t ((cid, st, tm) : Nat × Option Int × Option Int).2.1
          == Verdict.AC) = true := by simp [h]
      rw [if_pos h, List.takeWhile_cons, hb]
      simp only [List.length_cons, List.take_succ_cons, List.map_cons]
      rw [ih]
      rfl
    · have hb : (caseStatus t ((cid, st, tm) : Nat × Option Int × Option Int).2.1
          == Verdict.AC) = false := by simp [h]
      rw [if_neg h, List.takeWhile_cons, hb]
      simp [rowOf]

lemma gradeCases_overall_AC_iff (t : Bool) (sErr : List Char)
    (zs : List (Nat × Option Int × Option Int)) :
    ((gradeCases t sErr zs).overall = Verdict.AC ↔
      ∀ z ∈ zs, caseStatus t z.2.1 = Verdict.AC) := by
  induction zs with
  | nil => simp [gradeCases]
  | cons z rest ih =>
    rcases z with ⟨cid, st, tm⟩
    rw [gradeCases_cons]
    by_cases h : caseStatus t st = Verdict.AC
    · rw [if_pos h]
      simp only [List.mem_cons]
      constructor
      · intro hov z hz
        rcases hz with hz | hz
        · subst hz; exact h
        · exact (ih.mp hov) z hz
      · intro hall
        exact ih.mpr fun z hz => hall z (Or.inr hz)
    · rw [if_neg h]
      constructor
      · intro hov; exact absurd hov h
      · intro hall; exact absurd (hall (cid, st, tm) (by simp)) h

lemma gradeCases_totalExec_eq (t : Bool) (sErr : List Char)
    (zs : List (Nat × Option Int × Option Int)) :
    (gradeCases t sErr zs).totalExec = acRowTimeSum (gradeCases t sErr zs).rows := by
  induction zs with
  | nil => rfl
  | cons z rest ih =>
    rcases z with ⟨cid, st, tm⟩
    rw [gradeCases_cons]
    by_cases h : caseStatus t st = Verdict.AC
    · rw [if_pos h]
      simp only [acRowTimeSum, List.map_cons, List.sum_cons, h, if_pos]
      rw [ih]
      rfl
    · rw [if_neg h]
      simp [acRowTimeSum, h]

lemma gradeCases_dropLast_AC (t : Bool) (sErr : List Char)
    (zs : List (Nat × Option Int × Option Int)) :
    ∀ r ∈ (gradeCases t sErr zs).rows.dropLast, r.status = Verdict.AC := by
  induction zs with
  | nil => intro r hr; simp [gradeCases] at hr
  | cons z rest ih =>
    rcases z with ⟨cid, st, tm⟩
    rw [gradeCases_cons]
    by_cases h : caseStatus t st = Verdict.AC
    · rw [if_pos h]
      intro r hr
      rcases hrest : (gradeCases t sErr rest).rows with _ | ⟨r0, rr⟩
      · rw [hrest] at hr
        simp at hr
      · rw [hrest] at hr
        rw [List.dropLast_cons_of_ne_nil (by simp)] at hr
        rcases List.mem_cons.mp hr with hr | hr
        · subst hr
          exact h
        · exact ih r (by rw [hrest]; exact hr)
    · rw [if_neg h]
      intro r hr
      simp at hr

lemma gradeCases_length_le (t : Bool) (sErr : List Char)
    (zs : List (Nat × Option Int × Option Int)) :
    (gradeCases t sErr zs).rows.length ≤ zs.length := by
  rw [gradeCases_rows_eq, List.length_map, List.length_take]
  omega

/-! ## Lemmas about the grading request -/

lemma gradeSubmission_ok (inp : GradeInput) (hne : inp.orchError = none)
    (hok : inp.compileOk = true) :
    gradeSubmission inp =
      { overall := overallOf inp
        rows := (loopOf inp).rows
        execTimeForDb := execTimeForDbOf inp
        memKb := memKbOf inp
        totalExec := (loopOf inp).totalExec
        totalElapsedMs := inp.wallTotalMs } := by
  unfold gradeSubmission
  rw [hne]
  simp [hok]

lemma parsedOf_statuses_length (inp : GradeInput) :
    (parsedOf inp).statuses.length = inp.cases.length :=
  parseBatchResult_statuses_length _ _

lemma parsedOf_times_length (inp : GradeInput) :
    (parsedOf inp).times.length = inp.cases.length :=
  parseBatchResult_times_length _ _

lemma zsOf_length (inp : GradeInput) : (zsOf inp).length = inp.cases.length := by
  unfold zsOf
  simp [List.length_zip, parsedOf_statuses_length, parsedOf_times_length]

lemma zsOf_map_fst (inp : GradeInput) : (zsOf inp).map Prod.fst = inp.cases := by
  unfold zsOf
  apply List.map_fst_zip
  simp [List.length_zip, parsedOf_statuses_length, parsedOf_times_length]

lemma loopOf_timeout (inp : GradeInput) (hto : inp.execRes.timeout = true)
    (hc : inp.cases ≠ []) : (loopOf inp).overall = Verdict.TLE := by
  rcases hz : zsOf inp with _ | ⟨⟨cid, st, tm⟩, rest⟩
  · exfalso
    have hl := zsOf_length inp
    rw [hz] at hl
    exact hc (List.eq_nil_of_length_eq_zero hl.symm)
  · have hcs : caseStatus inp.execRes.timeout st = Verdict.TLE := by
      unfold caseStatus
      rw [hto]
      rfl
    have hloop : loopOf inp
        = gradeCases inp.execRes.timeout (clip inp.execRes.stderr 20000) (zsOf inp) := rfl
    rw [hloop, hz, gradeCases_cons, hcs]
    rw [if_neg (by intro h; exact Verdict.noConfusion h)]

/-- C1 (amended): if the runner reported `timeout=true`, the final verdict is
`TLE`; and if the measured elapsed execution time exceeds the configured total
time limit while every case parsed as passing (so the tentative verdict is
still `AC`), the final verdict is `TLE`.  The elapsed-time override does not
apply once some case already failed — the case-derived verdict stands then. -/
theorem claim1_tle_override (inp : GradeInput) (hc : inp.cases ≠ [])
    (hne : inp.orchError = none) (hok : inp.compileOk = true) :
    (inp.execRes.timeout = true → (gradeSubmission inp).overall = Verdict.TLE) ∧
    (inp.totalLimitMs < execElapsedOf inp →
      (∀ z ∈ zsOf inp, caseStatus inp.execRes.timeout z.2.1 = Verdict.AC) →
      (gradeSubmission inp).overall = Verdict.TLE) := by
  rw [gradeSubmission_ok inp hne hok]
  constructor
  · intro hto
    show overallOf inp = Verdict.TLE
    unfold overallOf
    rw [loopOf_timeout inp hto hc]
    rw [if_neg (by intro h; exact Verdict.noConfusion h.1)]
  · intro hel hall
    have hloop : (loopOf inp).overall = Verdict.AC :=
      (gradeCases_overall_AC_iff inp.execRes.timeout (clip inp.execRes.stderr 20000)
        (zsOf inp)).mpr hall
    show overallOf inp = Verdict.TLE
    unfold overallOf
    rw [hloop, if_pos ⟨rfl, Or.inr hel⟩]

/-- A compiled run whose only case parsed as failing (status 2) while the
measured elapsed time (50 ms) exceeds the total limit (10 ms) and the runner
did not report a timeout. -/
def inpC1 : GradeInput :=
  { cases := [1], compileOk := true,
    execRes := { timeout := false, exitCode := 1, stdoutLines := [⟨0, 2, 3⟩],
                 stderr := [], execTimeMs := some 50, memoryKb := none },
    totalLimitMs := 10, execWallMs := 50, wallTotalMs := 100, orchError := none }

/-- Counterexample to C1 as stated: the elapsed time exceeds the total limit,
yet the final verdict is the case-derived `WA`, not `TLE` — the override at
app.js line 262 fires only when `overall` is still `AC`. -/
theorem claim1_counterexample :
    inpC1.compileOk = true ∧ inpC1.execRes.timeout = false ∧
    inpC1.totalLimitMs < execElapsedOf inpC1 ∧
    (gradeSubmission inpC1).overall = Verdict.WA ∧
    (gradeSubmission inpC1).overall ≠ Verdict.TLE := by
  decide

/-- A run killed by the wall-clock timer (`timeout=true`). -/
def inpC1t : GradeInput :=
  { cases := [1], compileOk := true,
    execRes := { timeout := true, exitCode := 137, stdoutLines := [],
                 stderr := [], execTimeMs := none, memoryKb := none },
    totalLimitMs := 100, execWallMs := 5, wallTotalMs := 6, orchError := none }

/-- A run where every case parsed as passing but the measured CPU time
(200 ms) exceeds the total limit (100 ms). -/
def inpC1w : GradeInput :=
  { cases := [1], compileOk := true,
    execRes := { timeout := false, exitCode := 0, stdoutLines := [⟨0, 0, 5⟩],
                 stderr := [], execTimeMs := some 200, memoryKb := none },
    totalLimitMs := 100, execWallMs := 200, wallTotalMs := 300, orchError := none }

/-- Witness for `claim1_tle_override` on both override paths. -/
theorem claim1_tle_override_witness :
    (gradeSubmission inpC1t).overall = Verdict.TLE ∧
    (gradeSubmission inpC1w).overall = Verdict.TLE := by
  constructor
  · exact (claim1_tle_override inpC1t (by decide) rfl rfl).1 rfl
  · exact (claim1_tle_override inpC1w (by decide) rfl rfl).2 (by decide) (by decide)

/-- C2 (amended): for a submission that compiled and hit no orchestration
error, the stored execution time follows the priority chain — (a) the sum of
the positive recorded elapsed times of the `AC` rows when positive, else (b)
the runner's CPU time when present and positive, else (c) the largest positive
parsed case time when positive, else (d) the request's total wall-clock
time — only when the final verdict is `AC`; for any non-`AC` final verdict the
stored time is always the total wall-clock time. -/
theorem claim2_time_attribution (inp : GradeInput) (hne : inp.orchError = none)
    (hok : inp.compileOk = true) :
    ((gradeSubmission inp).overall = Verdict.AC →
      (gradeSubmission inp).execTimeForDb =
        (if 0 < acRowTimeSum (gradeSubmission inp).rows then
            acRowTimeSum (gradeSubmission inp).rows
          else if optPos inp.execRes.execTimeMs then inp.execRes.execTimeMs.getD 0
          else if 0 < maxCaseOf inp then maxCaseOf inp
          else inp.wallTotalMs)) ∧
    ((gradeSubmission inp).overall ≠ Verdict.AC →
      (gradeSubmission inp).execTimeForDb = inp.wallTotalMs) := by
  rw [gradeSubmission_ok inp hne hok]
  have hsum : acRowTimeSum (loopOf inp).rows = (loopOf inp).totalExec :=
    (gradeCases_totalExec_eq inp.execRes.timeout (clip inp.execRes.stderr 20000)
      (zsOf inp)).symm
  constructor
  · intro hov
    have hov' : overallOf inp = Verdict.AC := hov
    show execTimeForDbOf inp =
      if 0 < acRowTimeSum (loopOf inp).rows then acRowTimeSum (loopOf inp).rows
      else if optPos inp.execRes.execTimeMs then inp.execRes.execTimeMs.getD 0
      else if 0 < maxCaseOf inp then maxCaseOf inp
      else inp.wallTotalMs
    rw [hsum]
    unfold execTimeForDbOf
    rw [if_pos hov']
  · intro hov
    have hov' : ¬ overallOf inp = Verdict.AC := hov
    show execTimeForDbOf inp = inp.wallTotalMs
    unfold execTimeForDbOf
    rw [if_neg hov']

/-- A two-case run whose first case passed in 5 ms and second failed: the
final verdict is `WA` while the AC-case time sum is the positive 5. -/
def inpC2 : GradeInput :=
  { cases := [1, 2], compileOk := true,
    execRes := { timeout := false, exitCode := 1,
                 stdoutLines := [⟨0, 0, 5⟩, ⟨1, 2, 7⟩],
                 stderr := [], execTimeMs := some 12, memoryKb := none },
    totalLimitMs := 90000, execWallMs := 12, wallTotalMs := 100, orchError := none }

/-- Counterexample to C2 as stated: the AC-case elapsed-time sum is 5 (> 0),
so the claimed priority (a) would store 5; the code stores the total
wall-clock time 100 because the priority chain runs only for `AC` verdicts. -/
theorem claim2_counterexample :
    (gradeSubmission inpC2).overall = Verdict.WA ∧
    acRowTimeSum (gradeSubmission inpC2).rows = 5 ∧
    (gradeSubmission inpC2).execTimeForDb = 100 ∧
    (gradeSubmission inpC2).execTimeForDb ≠ 5 := by
  decide

/-- An accepted single-case run: parsed case time 5 ms, CPU time 6 ms. -/
def inpC2w : GradeInput :=
  { cases := [1], compileOk := true,
    execRes := { timeout := false, exitCode := 0, stdoutLines := [⟨0, 0, 5⟩],
                 stderr := [], execTimeMs := some 6, memoryKb := some 1000 },
    totalLimitMs := 90000, execWallMs := 6, wallTotalMs := 50, orchError := none }

/-- Witness for `claim2_time_attribution`: the accepted run stores the AC-case
sum 5 (priority a), not the CPU time or wall-clock time. -/
theorem claim2_time_attribution_witness :
    (gradeSubmission inpC2w).overall = Verdict.AC ∧
    (gradeSubmission inpC2w).execTimeForDb = 5 := by
  refine ⟨by decide, ?_⟩
  have h := (claim2_time_attribution inpC2w rfl rfl).1 (by decide)
  rw [h]
  decide

/-- C6 (amended): the recorded rows are a prefix of the test-case order, at
most one row per case, and every recorded row except possibly the last has
status `AC` (the last row is the first failure when one occurred); the row
count can equal the full case count with a failing last row, so it equals the
full count only if every case before the last passed. -/
theorem claim6_prefix_invariant (inp : GradeInput) (hc : inp.cases ≠ []) :
    ((gradeSubmission inp).rows.map (fun r => r.testCaseId)
        = inp.cases.take (gradeSubmission inp).rows.length) ∧
    (gradeSubmission inp).rows.length ≤ inp.cases.length ∧
    (∀ r ∈ (gradeSubmission inp).rows.dropLast, r.status = Verdict.AC) := by
  obtain ⟨c, cs, hcc⟩ : ∃ c cs, inp.cases = c :: cs := by
    cases hx : inp.cases with
    | nil => exact absurd hx hc
    | cons c cs => exact ⟨c, cs, rfl⟩
  cases herr : inp.orchError with
  | some e =>
    have hgs : gradeSubmission inp
        = { overall := Verdict.RE
            rows := [⟨inp.cases.headD 0, Verdict.RE, none, clip e 20000⟩]
            execTimeForDb := 0, memKb := none, totalExec := 0, totalElapsedMs := 0 } := by
      unfold gradeSubmission
      rw [herr]
    rw [hgs, hcc]
    refine ⟨by simp, by simp, ?_⟩
    intro r hr
    simp at hr
  | none =>
    cases hok : inp.compileOk with
    | false =>
      have hgs : gradeSubmission inp
          = { overall := Verdict.CE
              rows := [⟨inp.cases.headD 0, Verdict.CE, none, []⟩]
              execTimeForDb := 0, memKb := none, totalExec := 0, totalElapsedMs := 0 } := by
        unfold gradeSubmission
        rw [herr]
        simp [hok]
      rw [hgs, hcc]
      refine ⟨by simp, by simp, ?_⟩
      intro r hr
      simp at hr
    | true =>
      rw [gradeSubmission_ok inp herr hok]
      have hrows : (loopOf inp).rows
          = ((zsOf inp).take (((zsOf inp).takeWhile fun z =>
              caseStatus inp.execRes.timeout z.2.1 == Verdict.AC).length + 1)).map
            (rowOf inp.execRes.timeout (clip inp.execRes.stderr 20000)) :=
        gradeCases_rows_eq inp.execRes.timeout (clip inp.execRes.stderr 20000) (zsOf inp)
      refine ⟨?_, ?_, ?_⟩
      · show (loopOf inp).rows.map (fun r => r.testCaseId)
            = inp.cases.take (loopOf inp).rows.length
        rw [hrows, List.map_map, List.length_map, List.length_take]
        have hcomp : ((fun r : RowIns => r.testCaseId)
            ∘ rowOf inp.execRes.timeout (clip inp.execRes.stderr 20000))
            = (Prod.fst : Nat × Option Int × Option Int → Nat) := by
          funext z
          rfl
        rw [hcomp, List.map_take, zsOf_map_fst, zsOf_length]
        rcases Nat.le_total (((zsOf inp).takeWhile fun z =>
            caseStatus inp.execRes.timeout z.2.1 == Verdict.AC).length + 1)
            inp.cases.length with hle | hle
        · rw [Nat.min_eq_left hle]
        · rw [Nat.min_eq_right hle, List.take_length,
            List.take_of_length_le hle]
      · show (loopOf inp).rows.length ≤ inp.cases.length
        rw [hrows, List.length_map, List.length_take, ← zsOf_length inp]
        exact Nat.min_le_right _ _
      · show ∀ r ∈ (loopOf inp).rows.dropLast, r.status = Verdict.AC
        exact gradeCases_dropLast_AC inp.execRes.timeout
          (clip inp.execRes.stderr 20000) (zsOf inp)

/-- A two-case request whose second (last) case is the first failure. -/
def inpC6b : GradeInput :=
  { cases := [10, 20], compileOk := true,
    execRes := { timeout := false, exitCode := 1,
                 stdoutLines := [⟨0, 0, 4⟩, ⟨1, 2, 6⟩],
                 stderr := [], execTimeMs := some 10, memoryKb := none },
    totalLimitMs := 90000, execWallMs := 10, wallTotalMs := 50, orchError := none }

/-- Counterexample to C6 as stated: with two cases and the failure at the
last one, the recorded rows equal the full case count even though not every
case passed — the claimed "equals the full count only if every case passed"
fails. -/
theorem claim6_counterexample :
    (gradeSubmission inpC6b).rows.length = inpC6b.cases.length ∧
    (gradeSubmission inpC6b).rows
      = [⟨10, Verdict.AC, some 4, []⟩, ⟨20, Verdict.WA, some 6, []⟩] ∧
    (gradeSubmission inpC6b).overall = Verdict.WA := by
  decide

/-- A three-case request, case 0 passing and case 1 failing. -/
def inpC6 : GradeInput :=
  { cases := [10, 20, 30], compileOk := true,
    execRes := { timeout := false, exitCode := 1,
                 stdoutLines := [⟨0, 0, 4⟩, ⟨1, 2, 6⟩],
                 stderr := [], execTimeMs := some 10, memoryKb := none },
    totalLimitMs := 90000, execWallMs := 10, wallTotalMs := 50, orchError := none }

/-- Witness for `claim6_prefix_invariant`: case 0 passes, case 1 fails among
three cases — exactly two rows (AC then WA), a prefix of the case order with
no row for case index 2. -/
theorem claim6_prefix_invariant_witness :
    ((gradeSubmission inpC6).rows.map (fun r => r.testCaseId)
        = inpC6.cases.take (gradeSubmission inpC6).rows.length) ∧
    (gradeSubmission inpC6).rows.length ≤ inpC6.cases.length ∧
    (gradeSubmission inpC6).rows
      = [⟨10, Verdict.AC, some 4, []⟩, ⟨20, Verdict.WA, some 6, []⟩] := by
  have h := claim6_prefix_invariant inpC6 (by decide)
  exact ⟨h.1, h.2.1, by decide⟩

/-- C10: with a successful compile, no runner timeout, and no protocol line
for case index 0 in the captured stdout, the null parsed status maps to `WA`:
the overall verdict is `WA` and exactly one row is recorded, for the first
test case, with null elapsed time. -/
theorem claim10_null_status_wa (inp : GradeInput) (hne : inp.orchError = none)
    (hok : inp.compileOk = true) (hto : inp.execRes.timeout = false)
    (hc : inp.cases ≠ []) (h0 : ∀ l ∈ inp.execRes.stdoutLines, l.idx ≠ 0) :
    (gradeSubmission inp).overall = Verdict.WA ∧
    (gradeSubmission inp).rows
      = [⟨inp.cases.headD 0, Verdict.WA, none, clip inp.execRes.stderr 20000⟩] := by
  obtain ⟨c, cs, hcc⟩ : ∃ c cs, inp.cases = c :: cs := by
    cases hx : inp.cases with
    | nil => exact absurd hx hc
    | cons c cs => exact ⟨c, cs, rfl⟩
  have hn : 0 < inp.cases.length := by
    rw [hcc]
    simp
  have hlast : lastReportFor inp.execRes.stdoutLines 0 = none := by
    unfold lastReportFor
    rw [List.filter_eq_nil_iff.mpr ?_]
    · rfl
    · intro m hm
      simpa using h0 m hm
  have hs : (parsedOf inp).statuses[0]? = some none := by
    have h := (parseBatchResult_spec inp.execRes.stdoutLines inp.cases.length 0 hn).1
    rw [hlast] at h
    exact h
  have ht : (parsedOf inp).times[0]? = some none := by
    have h := (parseBatchResult_spec inp.execRes.stdoutLines inp.cases.length 0 hn).2
    rw [hlast] at h
    exact h
  rcases hst : (parsedOf inp).statuses with _ | ⟨s0, sts⟩
  · exfalso
    have hl := parsedOf_statuses_length inp
    rw [hst, hcc] at hl
    simp at hl
  rcases htm : (parsedOf inp).times with _ | ⟨t0, tms⟩
  · exfalso
    have hl := parsedOf_times_length inp
    rw [htm, hcc] at hl
    simp at hl
  have hs0 : s0 = none := by
    rw [hst] at hs
    simpa using hs
  have ht0 : t0 = none := by
    rw [htm] at ht
    simpa using ht
  have hzs : zsOf inp = (c, (none : Option Int), (none : Option Int))
      :: (cs.zip (sts.zip tms)) := by
    unfold zsOf
    rw [hcc, hst, htm, hs0, ht0]
    rfl
  have hcs : caseStatus inp.execRes.timeout (none : Option Int) = Verdict.WA := by
    unfold caseStatus
    rw [hto]
    rfl
  have hloop : loopOf inp
      = ⟨Verdict.WA, [⟨c, Verdict.WA, none, clip inp.execRes.stderr 20000⟩], 0⟩ := by
    have h1 : loopOf inp
        = gradeCases inp.execRes.timeout (clip inp.execRes.stderr 20000) (zsOf inp) := rfl
    rw [h1, hzs, gradeCases_cons, hcs]
    rw [if_neg (by intro h; exact Verdict.noConfusion h)]
  rw [gradeSubmission_ok inp hne hok]
  constructor
  · show overallOf inp = Verdict.WA
    unfold overallOf
    rw [hloop]
    rw [if_neg (by intro h; exact Verdict.noConfusion h.1)]
  · show (loopOf inp).rows
        = [⟨inp.cases.headD 0, Verdict.WA, none, clip inp.execRes.stderr 20000⟩]
    rw [hloop, hcc]
    rfl

/-- A single-case request whose stdout has no line for case index 0 (only an
out-of-range line for index 3). -/
def inpC10 : GradeInput :=
  { cases := [42], compileOk := true,
    execRes := { timeout := false, exitCode := 1, stdoutLines := [⟨3, 0, 1⟩],
                 stderr := [], execTimeMs := none, memoryKb := none },
    totalLimitMs := 90000, execWallMs := 5, wallTotalMs := 9, orchError := none }

/-- Witness for `claim10_null_status_wa` on `inpC10`. -/
theorem claim10_null_status_wa_witness :
    (gradeSubmission inpC10).overall = Verdict.WA ∧
    (gradeSubmission inpC10).rows = [⟨42, Verdict.WA, none, []⟩] := by
  have h := claim10_null_status_wa inpC10 rfl rfl rfl (by decide) (by decide)
  exact ⟨h.1, h.2.trans (by decide)⟩

/-! ## Lemmas about the ranking engine (claims C7 and C8) -/

/-- The database state after the rank reset and the aggregate pass. -/
def aggDB (db : JudgeDB) : JudgeDB :=
  phaseAggregates (resetRanks db)

/-- The sorted ranking order the engine computes for a recomputation starting
from `db`: the users with non-null stored aggregate time after the aggregate
pass, sorted by the three keys. -/
def rankingOrder (db : JudgeDB) : List UserRow :=
  rankedList (aggDB db)

/-- What the aggregate pass does to one user row (reset rank included):
a qualified user with nonzero recomputed time gets the recomputed aggregates,
anyone else keeps the stored ones. -/
def aggUser (db : JudgeDB) (u : UserRow) : UserRow :=
  if 0 < solvedCount db u.id ∧ computedTime db u.id ≠ 0 then
    { u with rank := none
             totalTimeMs := some (computedTime db u.id)
             totalMemoryKb := some (computedMem db u.id) }
  else { u with rank := none }

/-- What the rank-assignment pass does to one user row. -/
def rankUser (db : JudgeDB) (u : UserRow) : UserRow :=
  match (rankingOrder db).findIdx? (fun r => r.id == u.id) with
  | some i => { u with rank := some (i + 1) }
  | none => u

/-- The composite effect of one full recomputation on one user row. -/
def finalUser (db : JudgeDB) (u : UserRow) : UserRow :=
  if solvedCount db (rankUser db (aggUser db u)).id = 0 then
    clearUser (rankUser db (aggUser db u))
  else rankUser db (aggUser db u)

lemma aggUser_id (db : JudgeDB) (u : UserRow) : (aggUser db u).id = u.id := by
  unfold aggUser
  split <;> rfl

lemma rankUser_id (db : JudgeDB) (u : UserRow) : (rankUser db u).id = u.id := by
  unfold rankUser
  split <;> rfl

lemma finalUser_id (db : JudgeDB) (u : UserRow) : (finalUser db u).id = u.id := by
  unfold finalUser
  split
  · show (rankUser db (aggUser db u)).id = u.id
    rw [rankUser_id, aggUser_id]
  · rw [rankUser_id, aggUser_id]

lemma aggDB_users (db : JudgeDB) :
    (aggDB db).users = db.users.map (aggUser db) := by
  unfold aggDB phaseAggregates resetRanks
  simp only [List.map_map]
  rfl

lemma recalc_users (db : JudgeDB) (hp : db.problems ≠ []) :
    (recalculateAllRankings db).users = db.users.map (finalUser db) := by
  have h46 : recalculateAllRankings db = phaseExclude (phaseAssignRanks (aggDB db)) := by
    unfold recalculateAllRankings
    rw [if_neg hp]
    rfl
  rw [h46]
  show (((aggDB db).users.map (fun u =>
      match (rankedList (aggDB db)).findIdx? (fun r => r.id == u.id) with
      | some i => { u with rank := some (i + 1) }
      | none => u)).map (fun u => if solvedCount db u.id = 0 then clearUser u else u))
      = db.users.map (finalUser db)
  rw [aggDB_users, List.map_map, List.map_map]
  apply List.map_congr_left
  intro u _
  rfl

lemma finalUser_of_unqualified (db : JudgeDB) (u0 : UserRow)
    (hz : solvedCount db u0.id = 0) :
    finalUser db u0 = { id := u0.id, totalTimeMs := none,
                        totalMemoryKb := none, rank := none } := by
  unfold finalUser
  rw [if_pos (by rw [rankUser_id, aggUser_id]; exact hz)]
  unfold clearUser
  have hid : (rankUser db (aggUser db u0)).id = u0.id := by
    rw [rankUser_id, aggUser_id]
  rw [show ({ rankUser db (aggUser db u0) with
      rank := none, totalTimeMs := none, totalMemoryKb := none } : UserRow)
    = { id := (rankUser db (aggUser db u0)).id, totalTimeMs := none,
        totalMemoryKb := none, rank := none } from rfl, hid]

lemma aggUser_of_qualified (db : JudgeDB) (u0 : UserRow)
    (hq : 0 < solvedCount db u0.id) (hct : computedTime db u0.id ≠ 0) :
    aggUser db u0 = { id := u0.id, totalTimeMs := some (computedTime db u0.id),
                      totalMemoryKb := some (computedMem db u0.id), rank := none } := by
  unfold aggUser
  rw [if_pos ⟨hq, hct⟩]

lemma aggUser_mem_rankingOrder (db : JudgeDB) (u0 : UserRow) (hu0 : u0 ∈ db.users)
    (hq : 0 < solvedCount db u0.id) (hct : computedTime db u0.id ≠ 0) :
    aggUser db u0 ∈ rankingOrder db := by
  unfold rankingOrder rankedList
  rw [List.mem_insertionSort, List.mem_filter]
  constructor
  · rw [aggDB_users]
    exact List.mem_map_of_mem (aggUser db) hu0
  · rw [aggUser_of_qualified db u0 hq hct]
    rfl

lemma finalUser_of_qualified (db : JudgeDB) (u0 : UserRow) (hu0 : u0 ∈ db.users)
    (hq : 0 < solvedCount db u0.id) (hct : computedTime db u0.id ≠ 0) :
    ∃ i, (rankingOrder db).findIdx? (fun r => r.id == u0.id) = some i ∧
      finalUser db u0 = { id := u0.id, totalTimeMs := some (computedTime db u0.id),
                          totalMemoryKb := some (computedMem db u0.id),
                          rank := some (i + 1) } := by
  have hmem := aggUser_mem_rankingOrder db u0 hu0 hq hct
  have hfind : ∃ i, (rankingOrder db).findIdx? (fun r => r.id == u0.id) = some i := by
    rcases hf : (rankingOrder db).findIdx? (fun r => r.id == u0.id) with _ | i
    · exfalso
      have hall := List.findIdx?_eq_none_iff.mp hf
      have := hall (aggUser db u0) hmem
      rw [aggUser_id] at this
      simp at this
    · exact ⟨i, hf⟩
  obtain ⟨i, hi⟩ := hfind
  refine ⟨i, hi, ?_⟩
  unfold finalUser
  have hgen : ∀ v : UserRow, v.id = u0.id →
      rankUser db v = { v with rank := some (i + 1) } := by
    intro v hv
    unfold rankUser
    rw [hv, hi]
  rw [if_neg (by rw [rankUser_id, aggUser_id]; omega)]
  rw [hgen (aggUser db u0) (aggUser_id db u0), aggUser_of_qualified db u0 hq hct]

lemma optIntLE_total (a b : Option Int) : (optIntLE a b || optIntLE b a) = true := by
  rcases a with _ | a <;> rcases b with _ | b <;> simp [optIntLE] <;> omega

lemma optIntLE_trans {a b c : Option Int} (h1 : optIntLE a b = true)
    (h2 : optIntLE b c = true) : optIntLE a c = true := by
  rcases a with _ | a <;> rcases b with _ | b <;> rcases c with _ | c <;>
    simp [optIntLE] at * <;> omega

lemma optIntLE_antisymm {a b : Option Int} (h1 : optIntLE a b = true)
    (h2 : optIntLE b a = true) : a = b := by
  rcases a with _ | a <;> rcases b with _ | b <;> simp [optIntLE] at * <;> omega

lemma rankLE_total (db : JudgeDB) (a b : UserRow) :
    (rankLE db a b || rankLE db b a) = true := by
  unfold rankLE
  by_cases hs : solvedCount db a.id = solvedCount db b.id
  · rw [if_neg (show ¬ solvedCount db a.id ≠ solvedCount db b.id from fun hne => hne hs),
      if_neg (show ¬ solvedCount db b.id ≠ solvedCount db a.id from fun hne => hne hs.symm)]
    by_cases ht : a.totalTimeMs = b.totalTimeMs
    · rw [if_neg (show ¬ a.totalTimeMs ≠ b.totalTimeMs from fun hne => hne ht),
        if_neg (show ¬ b.totalTimeMs ≠ a.totalTimeMs from fun hne => hne ht.symm)]
      exact optIntLE_total _ _
    · rw [if_pos (show a.totalTimeMs ≠ b.totalTimeMs from ht),
        if_pos (show b.totalTimeMs ≠ a.totalTimeMs from Ne.symm ht)]
      exact optIntLE_total _ _
  · rw [if_pos (show solvedCount db a.id ≠ solvedCount db b.id from hs),
      if_pos (show solvedCount db b.id ≠ solvedCount db a.id from Ne.symm hs)]
    simp only [Bool.or_eq_true, decide_eq_true_eq]
    omega

lemma rankLE_trans (db : JudgeDB) (a b c : UserRow)
    (h1 : rankLE db a b = true) (h2 : rankLE db b c = true) :
    rankLE db a c = true := by
  unfold rankLE at h1 h2 ⊢
  by_cases hab : solvedCount db a.id = solvedCount db b.id
  · rw [if_neg (show ¬ solvedCount db a.id ≠ solvedCount db b.id from fun hne => hne hab)] at h1
    by_cases hbc : solvedCount db b.id = solvedCount db c.id
    · rw [if_neg (show ¬ solvedCount db b.id ≠ solvedCount db c.id from fun hne => hne hbc)] at h2
      rw [if_neg (show ¬ solvedCount db a.id ≠ solvedCount db c.id from
        fun hne => hne (hab.trans hbc))]
      by_cases htab : a.totalTimeMs = b.totalTimeMs
      · rw [if_neg (show ¬ a.totalTimeMs ≠ b.totalTimeMs from fun hne => hne htab)] at h1
        by_cases htbc : b.totalTimeMs = c.totalTimeMs
        · rw [if_neg (show ¬ b.totalTimeMs ≠ c.totalTimeMs from fun hne => hne htbc)] at h2
          rw [if_neg (show ¬ a.totalTimeMs ≠ c.totalTimeMs from
            fun hne => hne (htab.trans htbc))]
          exact optIntLE_trans h1 h2
        · rw [if_pos (show b.totalTimeMs ≠ c.totalTimeMs from htbc)] at h2
          rw [if_pos (show a.totalTimeMs ≠ c.totalTimeMs by rw [htab]; exact htbc)]
          rw [htab]
          exact h2
      · rw [if_pos (show a.totalTimeMs ≠ b.totalTimeMs from htab)] at h1
        by_cases htbc : b.totalTimeMs = c.totalTimeMs
        · rw [if_pos (show a.totalTimeMs ≠ c.totalTimeMs by rw [← htbc]; exact htab)]
          rw [← htbc]
          exact h1
        · rw [if_pos (show b.totalTimeMs ≠ c.totalTimeMs from htbc)] at h2
          by_cases htac : a.totalTimeMs = c.totalTimeMs
          · exfalso
            apply htab
            refine optIntLE_antisymm h1 ?_
            rw [← htac] at h2
            exact h2
          · rw [if_pos (show a.totalTimeMs ≠ c.totalTimeMs from htac)]
            exact optIntLE_trans h1 h2
    · rw [if_pos (show solvedCount db b.id ≠ solvedCount db c.id from hbc)] at h2
      simp only [decide_eq_true_eq] at h2
      rw [if_pos (show solvedCount db a.id ≠ solvedCount db c.id by omega)]
      simp only [decide_eq_true_eq]
      omega
  · rw [if_pos (show solvedCount db a.id ≠ solvedCount db b.id from hab)] at h1
    simp only [decide_eq_true_eq] at h1
    by_cases hbc : solvedCount db b.id = solvedCount db c.id
    · rw [if_pos (show solvedCount db a.id ≠ solvedCount db c.id by omega)]
      simp only [decide_eq_true_eq]
      omega
    · rw [if_pos hbc] at h2
      simp only [decide_eq_true_eq] at h2
      rw [if_pos (show solvedCount db a.id ≠ solvedCount db c.id by omega)]
      simp only [decide_eq_true_eq]
      omega

/-- The ranking query's output is sorted by the three keys. -/
lemma rankingOrder_pairwise (db : JudgeDB) :
    (rankingOrder db).Pairwise (fun x y => rankLE (aggDB db) x y = true) := by
  unfold rankingOrder rankedList
  haveI : IsTotal UserRow (fun a b => rankLE (aggDB db) a b = true) :=
    ⟨fun a b => by
      have h := rankLE_total (aggDB db) a b
      rw [Bool.or_eq_true] at h
      exact h⟩
  haveI : IsTrans UserRow (fun a b => rankLE (aggDB db) a b = true) :=
    ⟨fun a b c => rankLE_trans (aggDB db) a b c⟩
  exact List.sorted_insertionSort _ _

lemma rankingOrder_subset (db : JudgeDB) :
    ∀ r ∈ rankingOrder db, r ∈ (aggDB db).users := by
  intro r hr
  unfold rankingOrder rankedList at hr
  rw [List.mem_insertionSort] at hr
  exact (List.mem_filter.mp hr).1

lemma aggDB_ids (db : JudgeDB) :
    (aggDB db).users.map (fun u => u.id) = db.users.map (fun u => u.id) := by
  rw [aggDB_users, List.map_map]
  apply List.map_congr_left
  intro u _
  exact aggUser_id db u

lemma aggUser_rank (db : JudgeDB) (u : UserRow) : (aggUser db u).rank = none := by
  unfold aggUser
  split <;> rfl

lemma rankUser_fields (db : JudgeDB) (u : UserRow) :
    (rankUser db u).totalTimeMs = u.totalTimeMs ∧
    (rankUser db u).totalMemoryKb = u.totalMemoryKb := by
  refine ⟨?_, ?_⟩ <;> (unfold rankUser; split) <;> rfl

/-- Inversion of a nonnull final rank: the user is qualified, the rank is one
more than the user's position in the sorted ranking order, and the final
aggregates are the ones the aggregate pass stored. -/
lemma finalUser_rank_inv (db : JudgeDB) (u0 : UserRow) (a : Nat)
    (hr : (finalUser db u0).rank = some a) :
    0 < solvedCount db u0.id ∧
    ∃ i, a = i + 1 ∧ (rankingOrder db).findIdx? (fun r => r.id == u0.id) = some i ∧
      (finalUser db u0).totalTimeMs = (aggUser db u0).totalTimeMs ∧
      (finalUser db u0).totalMemoryKb = (aggUser db u0).totalMemoryKb := by
  unfold finalUser at hr ⊢
  by_cases hz : solvedCount db (rankUser db (aggUser db u0)).id = 0
  · rw [if_pos hz] at hr
    exact absurd hr (by simp [clearUser])
  · rw [if_neg hz] at hr ⊢
    constructor
    · rw [rankUser_id, aggUser_id] at hz
      omega
    · have hpred : (fun r : UserRow => r.id == (aggUser db u0).id)
          = (fun r : UserRow => r.id == u0.id) := by
        rw [aggUser_id]
      unfold rankUser at hr ⊢
      rw [hpred] at hr ⊢
      rcases hf : (rankingOrder db).findIdx? (fun r => r.id == u0.id) with _ | i
      · rw [hf] at hr
        rw [aggUser_rank] at hr
        exact absurd hr (by simp)
      · rw [hf] at hr ⊢
        refine ⟨i, ?_, rfl, rfl, rfl⟩
        have h' : some (i + 1) = some a := hr
        exact (Option.some.inj h').symm

lemma rankLE_congr (db : JudgeDB) (a a' b b' : UserRow)
    (ha1 : a.id = a'.id) (ha2 : a.totalTimeMs = a'.totalTimeMs)
    (ha3 : a.totalMemoryKb = a'.totalMemoryKb)
    (hb1 : b.id = b'.id) (hb2 : b.totalTimeMs = b'.totalTimeMs)
    (hb3 : b.totalMemoryKb = b'.totalMemoryKb) :
    rankLE db a b = rankLE db a' b' := by
  unfold rankLE
  rw [ha1, ha2, ha3, hb1, hb2, hb3]

/-- C8 (amended): after a full recomputation, a user with zero `AC`
submissions has null aggregates and a null rank; a user with at least one
`AC` submission whose recomputed aggregate time is positive ends with the
recomputed non-null aggregates and a non-null rank.  (A qualified user whose
recomputed time sum is `0` is skipped by the aggregate pass and can end with
null aggregates and a null rank — see the counterexample.) -/
theorem claim8_null_aggregates (db : JudgeDB) (hp : db.problems ≠ []) :
    ∀ u ∈ (recalculateAllRankings db).users,
      (solvedCount db u.id = 0 →
        u.rank = none ∧ u.totalTimeMs = none ∧ u.totalMemoryKb = none) ∧
      (0 < solvedCount db u.id → 0 < computedTime db u.id →
        u.totalTimeMs = some (computedTime db u.id) ∧
        u.totalMemoryKb = some (computedMem db u.id) ∧
        u.rank ≠ none) := by
  intro u hu
  rw [recalc_users db hp] at hu
  obtain ⟨u0, hu0, rfl⟩ := List.mem_map.mp hu
  constructor
  · intro hz
    rw [finalUser_id] at hz
    rw [finalUser_of_unqualified db u0 hz]
    exact ⟨rfl, rfl, rfl⟩
  · intro hq hct
    rw [finalUser_id] at hq hct
    obtain ⟨i, hfi, heq⟩ := finalUser_of_qualified db u0 hu0 hq (by omega)
    rw [heq]
    exact ⟨rfl, rfl, by simp⟩

/-- C7 (amended): after a full recomputation, every qualified user whose
recomputed aggregate time is positive carries exactly the recomputed
aggregates (sum of the positive per-case `AC` elapsed times of the
lowest-identifier `AC` submission per solved problem, and the positive stored
memory of those submissions), and their rank is one more than their position
in the sorted ranking order; moreover any two ranked users are ordered
consistently with the three keys: solved-count descending, aggregate time
ascending, aggregate memory ascending. -/
theorem claim7_ranking (db : JudgeDB)
    (hn : (db.users.map (fun u => u.id)).Nodup) (hp : db.problems ≠ []) :
    (∀ u ∈ (recalculateAllRankings db).users,
      0 < solvedCount db u.id → 0 < computedTime db u.id →
        u.totalTimeMs = some (computedTime db u.id) ∧
        u.totalMemoryKb = some (computedMem db u.id) ∧
        ∃ i, (rankingOrder db).findIdx? (fun r => r.id == u.id) = some i ∧
          u.rank = some (i + 1)) ∧
    (∀ u ∈ (recalculateAllRankings db).users, ∀ v ∈ (recalculateAllRankings db).users,
      ∀ a b, u.rank = some a → v.rank = some b → a < b →
        rankLE db u v = true) := by
  constructor
  · intro u hu hq hct
    rw [recalc_users db hp] at hu
    obtain ⟨u0, hu0, rfl⟩ := List.mem_map.mp hu
    rw [finalUser_id] at hq hct ⊢
    obtain ⟨i, hfi, heq⟩ := finalUser_of_qualified db u0 hu0 hq (by omega)
    rw [heq]
    exact ⟨rfl, rfl, ⟨i, hfi, rfl⟩⟩
  · intro u hu v hv a b hra hrb hab
    rw [recalc_users db hp] at hu hv
    obtain ⟨u0, hu0, rfl⟩ := List.mem_map.mp hu
    obtain ⟨v0, hv0, rfl⟩ := List.mem_map.mp hv
    obtain ⟨hqu, i, hai, hfi, htu, hmu⟩ := finalUser_rank_inv db u0 a hra
    obtain ⟨hqv, j, hbj, hfj, htv, hmv⟩ := finalUser_rank_inv db v0 b hrb
    have hij : i < j := by omega
    obtain ⟨hilen, hpi, -⟩ := List.findIdx?_eq_some_iff_getElem.mp hfi
    obtain ⟨hjlen, hpj, -⟩ := List.findIdx?_eq_some_iff_getElem.mp hfj
    have hpw := List.pairwise_iff_getElem.mp (rankingOrder_pairwise db) i j hilen hjlen hij
    have hidi : (rankingOrder db)[i].id = u0.id := by simpa using hpi
    have hidj : (rankingOrder db)[j].id = v0.id := by simpa using hpj
    have hnodup : ((aggDB db).users.map (fun u => u.id)).Nodup := by
      rw [aggDB_ids]
      exact hn
    have hmemi : (rankingOrder db)[i] ∈ (aggDB db).users :=
      rankingOrder_subset db _ (List.getElem_mem hilen)
    have hmemj : (rankingOrder db)[j] ∈ (aggDB db).users :=
      rankingOrder_subset db _ (List.getElem_mem hjlen)
    have hmemu : aggUser db u0 ∈ (aggDB db).users := by
      rw [aggDB_users]
      exact List.mem_map_of_mem _ hu0
    have hmemv : aggUser db v0 ∈ (aggDB db).users := by
      rw [aggDB_users]
      exact List.mem_map_of_mem _ hv0
    have heqi : (rankingOrder db)[i] = aggUser db u0 :=
      List.inj_on_of_nodup_map hnodup hmemi hmemu (by rw [hidi, aggUser_id])
    have heqj : (rankingOrder db)[j] = aggUser db v0 :=
      List.inj_on_of_nodup_map hnodup hmemj hmemv (by rw [hidj, aggUser_id])
    rw [heqi, heqj] at hpw
    have hconv1 : rankLE (aggDB db) (aggUser db u0) (aggUser db v0)
        = rankLE db (aggUser db u0) (aggUser db v0) := rfl
    have hconv2 : rankLE db (aggUser db u0) (aggUser db v0)
        = rankLE db (finalUser db u0) (finalUser db v0) :=
      rankLE_congr db _ _ _ _
        (by rw [aggUser_id, finalUser_id]) htu.symm hmu.symm
        (by rw [aggUser_id, finalUser_id]) htv.symm hmv.symm
    rw [hconv1, hconv2] at hpw
    exact hpw

/-- A database whose single user solved the single problem, but whose only
`AC` submission recorded `0 ms` on its one case. -/
def dbZero : JudgeDB :=
  { problems := [1],
    users := [⟨1, none, none, none⟩],
    submissions := [⟨1, 1, 1, Verdict.AC, some 5⟩],
    results := [⟨1, Verdict.AC, some 0⟩] }

/-- Counterexample to C7 as stated: the single user is qualified (solved
count 1), the claimed aggregate sums are 0 ms and 5 kB and the claimed rank
is 1, but the recomputation skips the user (`totalTimeMs === 0` ⇒ `continue`)
and leaves null aggregates and a null rank. -/
theorem claim7_counterexample :
    solvedCount dbZero 1 = 1 ∧ computedTime dbZero 1 = 0 ∧
    (recalculateAllRankings dbZero).users
      = [{ id := 1, totalTimeMs := none, totalMemoryKb := none, rank := none }] := by
  decide

/-- Counterexample to C8 as stated: the single user has an `AC` submission,
yet after recomputation their aggregates and rank are all null, because the
recomputed time sum is 0. -/
theorem claim8_counterexample :
    0 < solvedCount dbZero 1 ∧
    dbZero.submissions = [⟨1, 1, 1, Verdict.AC, some 5⟩] ∧
    (recalculateAllRankings dbZero).users
      = [{ id := 1, totalTimeMs := none, totalMemoryKb := none, rank := none }] := by
  decide

/-- Like `dbZero` but with a positive recorded case time. -/
def dbPos : JudgeDB :=
  { problems := [1],
    users := [⟨1, none, none, none⟩],
    submissions := [⟨1, 1, 1, Verdict.AC, some 5⟩],
    results := [⟨1, Verdict.AC, some 7⟩] }

/-- Witness for `claim8_null_aggregates` on `dbPos`: the qualified user with
positive recomputed time (7 ms) ends with non-null aggregates and rank. -/
theorem claim8_null_aggregates_witness :
    computedTime dbPos 1 = 7 ∧
    ((⟨1, some 7, some 5, some 1⟩ : UserRow).totalTimeMs = some (computedTime dbPos 1) ∧
     (⟨1, some 7, some 5, some 1⟩ : UserRow).totalMemoryKb = some (computedMem dbPos 1) ∧
     (⟨1, some 7, some 5, some 1⟩ : UserRow).rank ≠ none) := by
  refine ⟨by decide, ?_⟩
  have h := claim8_null_aggregates dbPos (by decide)
  exact (h ⟨1, some 7, some 5, some 1⟩ (by decide)).2 (by decide) (by decide)

/-- Witness for `claim7_ranking` on `dbPos`: the user's stored aggregates are
the recomputed sums (7 ms, 5 kB) and the rank is their 1-based position in
the ranking order. -/
theorem claim7_ranking_witness :
    computedTime dbPos 1 = 7 ∧ computedMem dbPos 1 = 5 ∧
    ((⟨1, some 7, some 5, some 1⟩ : UserRow).totalTimeMs = some (computedTime dbPos 1) ∧
     ∃ i, (rankingOrder dbPos).findIdx?
         (fun r => r.id == (⟨1, some 7, some 5, some 1⟩ : UserRow).id) = some i ∧
       (⟨1, some 7, some 5, some 1⟩ : UserRow).rank = some (i + 1)) := by
  refine ⟨by decide, by decide, ?_⟩
  have h := (claim7_ranking dbPos (by decide) (by decide)).1
    ⟨1, some 7, some 5, some 1⟩ (by decide) (by decide) (by decide)
  exact ⟨h.1, h.2.2⟩

end Sdoku
